import Mathlib

/-!
# Verification of the FileAnalyzer tool (`get_info.py`)

A shallow embedding of the file-metadata tool: one `FileInfo` record per
discovered file, traversal over a modelled directory listing, three filters
(minimum size, name substring, modified-time lower bound), a stable sort by a
chosen key, and the output-writing loop.  Machinery that touches the real
operating system (stat, globbing, the environment) is modelled by explicit
inputs: a traversal is a list of raw directory entries, each carrying the
outcome of its `stat` call.
-/

/-! ## Date parsing: `datetime.strptime(s, "%d.%m.%Y %H:%M")`

CPython's `_strptime` compiles the format to a regular expression
(`%d`, `%m`, `%H`, `%M` match one or two digits within range, `%Y` exactly four
digits, a space matches one or more whitespace characters) and then builds a
`datetime`, which validates the day against the month length.  A failed match,
leftover input, or an invalid calendar date raises `ValueError`, modelled here
as `none`. -/

/-- A parsed `datetime` value (year, month, day, hour, minute). -/
structure DateTime where
  year : Nat
  month : Nat
  day : Nat
  hour : Nat
  minute : Nat
deriving DecidableEq

/-- Numeric value of a decimal digit character. -/
def digitVal (c : Char) : Nat := c.toNat - 48

/-- Read one or two decimal digits (two when the second character is a digit),
returning the value and the rest of the input; fails on a non-digit. -/
def readNat2 : List Char → Option (Nat × List Char)
  | c1 :: c2 :: rest =>
    if c1.isDigit then
      if c2.isDigit then some (digitVal c1 * 10 + digitVal c2, rest)
      else some (digitVal c1, c2 :: rest)
    else none
  | [c1] => if c1.isDigit then some (digitVal c1, []) else none
  | [] => none

/-- Read exactly four decimal digits (the `%Y` directive). -/
def readNat4 : List Char → Option (Nat × List Char)
  | c1 :: c2 :: c3 :: c4 :: rest =>
    if c1.isDigit && c2.isDigit && c3.isDigit && c4.isDigit then
      some (((digitVal c1 * 10 + digitVal c2) * 10 + digitVal c3) * 10 + digitVal c4, rest)
    else none
  | _ => none

/-- Consume one expected literal character. -/
def dropChar (c : Char) : List Char → Option (List Char)
  | d :: rest => if d == c then some rest else none
  | [] => none

/-- Consume one or more whitespace characters (a space in the format is
compiled to the pattern matching one-or-more whitespace). -/
def dropSpaces1 : List Char → Option (List Char)
  | d :: rest =>
    if d.isWhitespace then some (rest.dropWhile Char.isWhitespace) else none
  | [] => none

/-- Gregorian leap-year rule used by `datetime`. -/
def isLeapYear (y : Nat) : Bool :=
  y % 4 == 0 && (y % 100 != 0 || y % 400 == 0)

/-- Number of days in a month, as validated by the `datetime` constructor. -/
def daysInMonth (y m : Nat) : Nat :=
  if m == 2 then (if isLeapYear y then 29 else 28)
  else if m == 4 || m == 6 || m == 9 || m == 11 then 30
  else 31

/-- `datetime.strptime(s, "%d.%m.%Y %H:%M")`: `none` models the `ValueError`
raised on a malformed string or an invalid calendar date. -/
def strptime (s : String) : Option DateTime := do
  let (d, r1) ← readNat2 s.toList
  let r2 ← dropChar '.' r1
  let (m, r3) ← readNat2 r2
  let r4 ← dropChar '.' r3
  let (y, r5) ← readNat4 r4
  let r6 ← dropSpaces1 r5
  let (h, r7) ← readNat2 r6
  let r8 ← dropChar ':' r7
  let (mi, r9) ← readNat2 r8
  if r9.isEmpty ∧ 1 ≤ d ∧ d ≤ 31 ∧ 1 ≤ m ∧ m ≤ 12 ∧ h ≤ 23 ∧ mi ≤ 59
      ∧ 1 ≤ y ∧ y ≤ 9999 ∧ d ≤ daysInMonth y m then
    some ⟨y, m, d, h, mi⟩
  else
    none

/-- Comparison of two `datetime` values: Python compares them
field-lexicographically (year, month, day, hour, minute).  `DateTime.ble a b`
is `a <= b`. -/
def DateTime.ble (a b : DateTime) : Bool :=
  if a.year ≠ b.year then decide (a.year < b.year)
  else if a.month ≠ b.month then decide (a.month < b.month)
  else if a.day ≠ b.day then decide (a.day < b.day)
  else if a.hour ≠ b.hour then decide (a.hour < b.hour)
  else decide (a.minute ≤ b.minute)

/-- `str.lower()`: lower-case a string character by character.  The data in
this repository is ASCII, so basic-latin lowering models Python's `lower`. -/
def strLower (s : String) : String :=
  String.mk (s.toList.map Char.toLower)

/-! ## Data model: `FileInfo` and the traversal -/

/-- The `FileInfo` dataclass: name, path, size (a Python `int`), formatted
modified time, and parent directory.  Paths are modelled as strings. -/
structure FileInfo where
  name : String
  path : String
  size : Int
  modified_time : String
  parent_dir : String
deriving DecidableEq

/-- Outcome of a successful `stat` call on a file: the modified time already
rendered by `time.strftime("%d.%m.%Y %H:%M", ...)` (local-time formatting is
environment input), and the non-negative `st_size`. -/
structure StatResult where
  mtimeFormatted : String
  size : Nat
deriving DecidableEq

/-- One path yielded by `directory.rglob('*')` (or `glob('*')`): its final
component `name`, the full path string, whether it is a regular file, and the
outcome of `stat` (`none` models `FileNotFoundError`, `PermissionError` or any
other `OSError`). -/
structure RawEntry where
  name : String
  pathStr : String
  parentDirStr : String
  isFile : Bool
  statResult : Option StatResult
deriving DecidableEq

/-- `PurePath.suffix`: the extension of the final component — the substring
from the last dot, provided that dot is neither the first nor the last
character; otherwise the empty string. -/
def lastIdxOf (c : Char) : List Char → Option Nat
  | [] => none
  | d :: rest =>
    match lastIdxOf c rest with
    | some i => some (i + 1)
    | none => if d == c then some 0 else none

/-- The `suffix` of a file name, following `PurePath.suffix`. -/
def pathSuffix (name : String) : String :=
  let cs := name.toList
  match lastIdxOf '.' cs with
  | none => ""
  | some i => if 0 < i ∧ i < cs.length - 1 then String.mk (cs.drop i) else ""

/-- `FileInfo.from_path`: builds a `FileInfo` from a directory entry, or
returns `none` when `stat` failed (the source logs the error and returns
`None`). -/
def FileInfo.from_path (e : RawEntry) : Option FileInfo :=
  match e.statResult with
  | some st =>
      some ⟨e.name, e.pathStr, (st.size : Int), st.mtimeFormatted, e.parentDirStr⟩
  | none => none

/-- `collect_file_info`: walks the traversal output, keeps regular files whose
suffix (lower-cased) is in the extension set when that set is non-empty, stats
each and appends the successful results.  The extension set (already
lower-cased by `main`) is modelled as a list with membership by equality. -/
def collect_file_info (entries : List RawEntry) (extensions : List String) :
    List FileInfo :=
  match entries with
  | [] => []
  | e :: rest =>
    if e.isFile && (extensions.isEmpty || extensions.contains (strLower (pathSuffix e.name))) then
      match FileInfo.from_path e with
      | some fi => fi :: collect_file_info rest extensions
      | none => collect_file_info rest extensions
    else
      collect_file_info rest extensions

/-! ## Filters -/

/-- `needle` occurs as an initial segment of `hay`. -/
def charsStart : List Char → List Char → Bool
  | [], _ => true
  | _ :: _, [] => false
  | a :: as, b :: bs => a == b && charsStart as bs

/-- Python's `needle in hay` on strings, over character lists: `needle` occurs
contiguously somewhere in `hay`. -/
def containsSub (needle : List Char) : List Char → Bool
  | [] => needle.isEmpty
  | b :: bs => charsStart needle (b :: bs) || containsSub needle bs

/-- `filter_by_name`: keeps the entries whose (lower-cased) name contains the
(lower-cased) filter string. -/
def filter_by_name (file_info_list : List FileInfo) (name_filter : String) :
    List FileInfo :=
  file_info_list.filter
    (fun f => containsSub (strLower name_filter).toList (strLower f.name).toList)

/-- The comprehension inside `filter_by_date`: parses each entry's
`modified_time` and keeps the entry when it is `>=` the bound; a `ValueError`
from parsing an entry propagates (the entries are examined left to right). -/
def filterKeptByDate (fd : DateTime) : List FileInfo → Except String (List FileInfo)
  | [] => Except.ok []
  | f :: rest =>
    match strptime f.modified_time with
    | none =>
        Except.error ("time data does not match format: " ++ f.modified_time)
    | some d =>
      match filterKeptByDate fd rest with
      | Except.error e => Except.error e
      | Except.ok tail => Except.ok (if DateTime.ble fd d then f :: tail else tail)

/-- `filter_by_date`: parses the bound (raising `ValueError` on a malformed
bound, modelled by `Except.error`), then keeps the entries whose parsed
modified time is `>=` the bound. -/
def filter_by_date (file_info_list : List FileInfo) (date_filter : String) :
    Except String (List FileInfo) :=
  match strptime date_filter with
  | none => Except.error ("invalid date format: " ++ date_filter)
  | some fd => filterKeptByDate fd file_info_list

/-- The minimum-size step of `main`:  `if min_size:` is Python truthiness, so
`None` and `0` skip the filter; otherwise entries with `size >= min_size` are
kept. -/
def applyMinSize (file_info_list : List FileInfo) (min_size : Option Int) :
    List FileInfo :=
  match min_size with
  | none => file_info_list
  | some m =>
    if m = 0 then file_info_list
    else file_info_list.filter (fun f => decide (m ≤ f.size))

/-- Directory resolution in `main`: `Path(env_directory) if env_directory else
Path(directory)` — the `FILE_DIRECTORY` environment variable wins when it is
set and non-empty (the empty string is falsy in Python). -/
def resolveDirectory (env_directory : Option String) (directory : String) : String :=
  match env_directory with
  | some e => if e.isEmpty then directory else e
  | none => directory

/-! ## Sorting

`display_file_info` sorts the list in place with `list.sort(key=...)`, a
stable sort by the chosen key; `main` maps `--sort-by` to a key function:
`name`, `size`, or the formatted `modified_time` string (so the modified-time
order is lexicographic on the string).  The stable sort-by-key is modelled by
`List.insertionSort` over the key's order. -/

/-- The three sort keys offered by `main`'s `sort_funcs` dictionary. -/
inductive SortKey
  | name
  | size
  | modified
deriving DecidableEq

/-- Python's `<=` on strings: lexicographic comparison of the code-point
sequences. -/
def charsLe : List Char → List Char → Bool
  | [], _ => true
  | _ :: _, [] => false
  | a :: as, b :: bs =>
    decide (a.toNat < b.toNat) || (a.toNat == b.toNat && charsLe as bs)

theorem charsLe_total (as : List Char) : ∀ bs, charsLe as bs = true ∨ charsLe bs as = true := by
  induction as with
  | nil => intro bs; left; rfl
  | cons a as ih =>
    intro bs
    cases bs with
    | nil => right; rfl
    | cons b bs =>
      rcases Nat.lt_trichotomy a.toNat b.toNat with h | h | h
      · left; simp [charsLe, h]
      · rcases ih bs with h2 | h2
        · left; simp [charsLe, h, h2]
        · right; simp [charsLe, h.symm, h2]
      · right; simp [charsLe, h]

theorem charsLe_trans (as : List Char) :
    ∀ bs cs, charsLe as bs = true → charsLe bs cs = true → charsLe as cs = true := by
  induction as with
  | nil => intro bs cs _ _; rfl
  | cons a as ih =>
    intro bs cs h1 h2
    cases bs with
    | nil => simp [charsLe] at h1
    | cons b bs =>
      cases cs with
      | nil => simp [charsLe] at h2
      | cons c cs =>
        simp only [charsLe, Bool.or_eq_true, Bool.and_eq_true, decide_eq_true_eq,
          beq_iff_eq] at h1 h2 ⊢
        rcases h1 with h1 | ⟨h1e, h1r⟩
        · rcases h2 with h2 | ⟨h2e, h2r⟩
          · exact Or.inl (Nat.lt_trans h1 h2)
          · exact Or.inl (h2e ▸ h1)
        · rcases h2 with h2 | ⟨h2e, h2r⟩
          · exact Or.inl (h1e ▸ h2)
          · exact Or.inr ⟨h1e.trans h2e, ih bs cs h1r h2r⟩

/-- The ordering on `FileInfo` induced by a sort key: Python string order for
`name` and `modified` (the formatted time string), integer order for `size`. -/
def sortKeyLe (k : SortKey) (a b : FileInfo) : Prop :=
  match k with
  | .name => charsLe a.name.toList b.name.toList = true
  | .size => a.size ≤ b.size
  | .modified => charsLe a.modified_time.toList b.modified_time.toList = true

instance sortKeyLeDecidable (k : SortKey) : DecidableRel (sortKeyLe k) :=
  fun a b =>
    match k with
    | .name => inferInstanceAs (Decidable (_ = true))
    | .size => inferInstanceAs (Decidable (a.size ≤ b.size))
    | .modified => inferInstanceAs (Decidable (_ = true))

instance sortKeyLeTotal (k : SortKey) : IsTotal FileInfo (sortKeyLe k) where
  total a b := by
    cases k
    · exact charsLe_total a.name.toList b.name.toList
    · exact le_total a.size b.size
    · exact charsLe_total a.modified_time.toList b.modified_time.toList

instance sortKeyLeTrans (k : SortKey) : IsTrans FileInfo (sortKeyLe k) where
  trans a b c hab hbc := by
    cases k
    · exact charsLe_trans _ _ _ hab hbc
    · exact le_trans hab hbc
    · exact charsLe_trans _ _ _ hab hbc

/-- The sorting step of `display_file_info` for a chosen key: a stable sort by
that key. -/
def sortFiles (k : SortKey) (l : List FileInfo) : List FileInfo :=
  l.insertionSort (sortKeyLe k)

/-! ## Output

`write_to_file` renders the list with `tabulate(..., tablefmt=fmt)` and, when
an output file is given, opens it in `'w'` mode (truncating) and writes the
rendering; with no output file it prints to standard output.  `main` then
loops `write_to_file` over every requested format with the *same* output
path. The file system is an association list from path to content. -/

/-- Model of the external `tabulate` library: an abstract rendering that
records the format name and the rows, so distinct formats yield distinct
renderings of the same non-empty data (as `grid` and `csv` do in `tabulate`). -/
def renderTable (l : List FileInfo) (fmt : String) : String :=
  fmt ++ ";" ++ String.intercalate "|"
    (l.map (fun f =>
      f.name ++ "," ++ f.path ++ "," ++ toString f.size ++ ","
        ++ f.modified_time ++ "," ++ f.parent_dir))

/-- Write (or overwrite) the file at path `p` with content `c`. -/
def setFile (fs : List (String × String)) (p c : String) : List (String × String) :=
  match fs with
  | [] => [(p, c)]
  | (q, d) :: rest => if q == p then (p, c) :: rest else (q, d) :: setFile rest p c

/-- Content of the file at path `p`, if any. -/
def getFile : List (String × String) → String → Option String
  | [], _ => none
  | (q, c) :: rest, p => if q == p then some c else getFile rest p

/-- `write_to_file`: with an output path, truncating write of the rendering to
that path; otherwise the rendering goes to standard output (collected in the
second component). -/
def write_to_file (l : List FileInfo) (output_file : Option String) (fmt : String)
    (fs : List (String × String)) : List (String × String) × List String :=
  match output_file with
  | some p => (setFile fs p (renderTable l fmt), [])
  | none => (fs, [renderTable l fmt])

/-- The output loop at the end of `main`: one `write_to_file` call per
requested format, threading the file-system state. -/
def writeOutputs (l : List FileInfo) (output_file : Option String) :
    List String → List (String × String) → List (String × String) × List String
  | [], fs => (fs, [])
  | fmt :: rest, fs =>
    let step := write_to_file l output_file fmt fs
    let next := writeOutputs l output_file rest step.1
    (next.1, step.2 ++ next.2)

/-! ## Concrete fixtures (mirroring the repository's unit tests) -/

/-- `test_file.txt` from the test suite. -/
def fTest : FileInfo := ⟨"test_file.txt", "/test/test_file.txt", 1024, "01.01.2023 12:00", "/test"⟩

/-- `example_file.txt` from the test suite. -/
def fExample : FileInfo := ⟨"example_file.txt", "/test/example_file.txt", 2048, "01.01.2022 12:00", "/test"⟩

/-- `boundary_file.txt`: modified just before midnight on New Year's Eve. -/
def fBoundary : FileInfo := ⟨"boundary_file.txt", "/test/boundary_file.txt", 512, "31.12.2022 23:59", "/test"⟩

/-- A file modified at midnight on New Year's Day. -/
def fNewYear : FileInfo := ⟨"newyear_file.txt", "/test/newyear_file.txt", 1024, "01.01.2023 00:00", "/test"⟩

/-- A `FileInfo` whose `modified_time` string does not parse. -/
def fBad : FileInfo := ⟨"bad_file.txt", "/test/bad_file.txt", 1, "invalid_date_format", "/test"⟩

/-- Files of the three sizes from the minimum-size example. -/
def f512 : FileInfo := ⟨"a.txt", "/test/a.txt", 512, "01.01.2023 12:00", "/test"⟩

def f1024 : FileInfo := ⟨"b.txt", "/test/b.txt", 1024, "01.01.2023 12:00", "/test"⟩

def f2048 : FileInfo := ⟨"c.txt", "/test/c.txt", 2048, "01.01.2023 12:00", "/test"⟩

/-- A traversal entry whose `stat` succeeds, yielding `fTest`. -/
def rawTest : RawEntry := ⟨"test_file.txt", "/test/test_file.txt", "/test", true, some ⟨"01.01.2023 12:00", 1024⟩⟩

/-- A traversal entry whose `stat` fails. -/
def rawFail : RawEntry := ⟨"gone.txt", "/test/gone.txt", "/test", true, none⟩

/-! ## Theorems -/

/-- C5: `filter_by_name` returns exactly the entries whose name contains the
filter string as a case-insensitive substring; on the empty list it returns
the empty list; and with filter `"test"` against `test_file.txt` and
`example_file.txt` it returns only `test_file.txt`. -/
theorem C5_filter_by_name_characterization (l : List FileInfo) (nf : String) :
    (∀ f, f ∈ filter_by_name l nf ↔
        f ∈ l ∧ containsSub (strLower nf).toList (strLower f.name).toList) ∧
    filter_by_name [] nf = [] ∧
    filter_by_name [fTest, fExample] "test" = [fTest] := by
  refine ⟨?_, rfl, by decide⟩
  intro f
  simp [filter_by_name, List.mem_filter]

/-- C6: for a positive minimum size the filter keeps exactly the entries of
size at least that bound (inclusive), and sizes 512/1024/2048 filtered with
bound 1000 yield exactly the 1024- and 2048-byte files. -/
theorem C6_min_size_filter (l : List FileInfo) (m : Int) (hm : 0 < m) :
    (∀ f, f ∈ applyMinSize l (some m) ↔ f ∈ l ∧ m ≤ f.size) ∧
    applyMinSize [f512, f1024, f2048] (some 1000) = [f1024, f2048] := by
  constructor
  · intro f
    have hm0 : ¬(m = 0) := by omega
    simp [applyMinSize, hm0, List.mem_filter]
  · decide

/-- Witness for C6 at the spec's example input. -/
theorem C6_min_size_filter_witness :
    applyMinSize [f512, f1024, f2048] (some 1000) = [f1024, f2048] :=
  (C6_min_size_filter [f512, f1024, f2048] 1000 (by decide)).2

/-- C7: a failed `stat` makes `FileInfo.from_path` return nothing, and
`collect_file_info` excludes that entry and continues with the remaining
entries. -/
theorem C7_stat_failure_skipped (e : RawEntry) (rest : List RawEntry)
    (extensions : List String) (hfail : e.statResult = none) :
    FileInfo.from_path e = none ∧
    collect_file_info (e :: rest) extensions = collect_file_info rest extensions := by
  have hfp : FileInfo.from_path e = none := by
    unfold FileInfo.from_path
    rw [hfail]
  refine ⟨hfp, ?_⟩
  rw [collect_file_info]
  by_cases hg : e.isFile && (extensions.isEmpty || extensions.contains (strLower (pathSuffix e.name)))
  · rw [if_pos hg, hfp]
  · rw [if_neg hg]

/-- Witness for C7: a concrete entry with a failed `stat`. -/
theorem C7_stat_failure_skipped_witness :
    FileInfo.from_path rawFail = none ∧
    collect_file_info [rawFail, rawTest] [] = collect_file_info [rawTest] [] :=
  C7_stat_failure_skipped rawFail [rawTest] [] rfl

/-- C8: a set, non-empty `FILE_DIRECTORY` value overrides the positional
directory argument; when unset or empty, the positional argument is used. -/
theorem C8_env_directory_override (env_val directory : String) (henv : env_val ≠ "") :
    resolveDirectory (some env_val) directory = env_val ∧
    resolveDirectory none directory = directory ∧
    resolveDirectory (some "") directory = directory := by
  refine ⟨?_, rfl, rfl⟩
  have h0 : ¬(env_val.isEmpty = true) := fun h => henv ((String.isEmpty_iff env_val).mp h)
  simp only [resolveDirectory]
  rw [if_neg h0]

/-- Witness for C8 at a concrete environment value. -/
theorem C8_env_directory_override_witness :
    resolveDirectory (some "/data") "." = "/data" ∧
    resolveDirectory none "." = "." ∧
    resolveDirectory (some "") "." = "." :=
  C8_env_directory_override "/data" "." (by decide)

/-- C2: for every sort key the sort is a permutation of the input, sorted by
the key's order, and stable (a pair in key order keeps its relative order);
for the modified-time key the order is lexicographic on the formatted
`dd.mm.yyyy HH:MM` string, not chronological: a file stamped
`31.12.2022 23:59` sorts after one stamped `01.01.2023 00:00` although it is
chronologically earlier. -/
theorem C2_sort_stable_lexicographic :
    (∀ (k : SortKey) (l : List FileInfo),
        List.Perm (sortFiles k l) l ∧
        (sortFiles k l).Sorted (sortKeyLe k) ∧
        ∀ a b : FileInfo, sortKeyLe k a b → List.Sublist [a, b] l →
          List.Sublist [a, b] (sortFiles k l)) ∧
    (strptime fBoundary.modified_time = some ⟨2022, 12, 31, 23, 59⟩ ∧
     strptime fNewYear.modified_time = some ⟨2023, 1, 1, 0, 0⟩ ∧
     DateTime.ble ⟨2022, 12, 31, 23, 59⟩ ⟨2023, 1, 1, 0, 0⟩ = true ∧
     sortFiles .modified [fBoundary, fNewYear] = [fNewYear, fBoundary]) := by
  constructor
  · intro k l
    refine ⟨List.perm_insertionSort _ _, List.sorted_insertionSort _ _, ?_⟩
    intro a b hab hsub
    exact List.pair_sublist_insertionSort hab hsub
  · exact ⟨by decide, by decide, by decide, by decide⟩

/-- Witness for C2: a concrete pair in key order stays in order. -/
theorem C2_sort_stable_lexicographic_witness :
    List.Sublist [fTest, fExample] (sortFiles .size [fTest, fExample]) :=
  (C2_sort_stable_lexicographic.1 .size [fTest, fExample]).2.2 fTest fExample
    (by decide) (List.Sublist.refl _)

/-- C4: every entry collected by `collect_file_info` has non-negative size,
and when the extension set is non-empty the lower-cased suffix of the entry's
name belongs to it. -/
theorem C4_collect_invariants (entries : List RawEntry) (extensions : List String)
    (fi : FileInfo) (hmem : fi ∈ collect_file_info entries extensions) :
    0 ≤ fi.size ∧ (extensions ≠ [] → strLower (pathSuffix fi.name) ∈ extensions) := by
  induction entries with
  | nil => simp [collect_file_info] at hmem
  | cons e rest ih =>
    rw [collect_file_info] at hmem
    by_cases hg : e.isFile && (extensions.isEmpty || extensions.contains (strLower (pathSuffix e.name)))
    · rw [if_pos hg] at hmem
      cases hst : e.statResult with
      | none =>
        rw [show FileInfo.from_path e = none by unfold FileInfo.from_path; rw [hst]] at hmem
        exact ih hmem
      | some st =>
        rw [show FileInfo.from_path e
            = some ⟨e.name, e.pathStr, (st.size : Int), st.mtimeFormatted, e.parentDirStr⟩ by
          unfold FileInfo.from_path; rw [hst]] at hmem
        rcases List.mem_cons.mp hmem with heq | hmem2
        · subst heq
          refine ⟨Int.natCast_nonneg st.size, ?_⟩
        
          intro hne
          have hg2 := (Bool.and_eq_true _ _ |>.mp hg).2
          rcases Bool.or_eq_true _ _ |>.mp hg2 with hemp | hcont
          · exact absurd (List.isEmpty_iff.mp hemp) hne
          · simpa using hcont
        · exact ih hmem2
    · rw [if_neg hg] at hmem
      exact ih hmem

/-- Witness for C4: a concrete traversal with extension set `[".txt"]`. -/
theorem C4_collect_invariants_witness :
    0 ≤ fTest.size ∧ strLower (pathSuffix fTest.name) ∈ [".txt"] :=
  ⟨(C4_collect_invariants [rawTest] [".txt"] fTest (by decide)).1,
   (C4_collect_invariants [rawTest] [".txt"] fTest (by decide)).2 (by decide)⟩

/-- When every entry's `modified_time` parses, the date filter succeeds and
keeps exactly the entries whose parsed time is at least the bound. -/
theorem filterKeptByDate_eq (fd : DateTime) (l : List FileInfo)
    (hwf : ∀ f ∈ l, (strptime f.modified_time).isSome) :
    filterKeptByDate fd l = Except.ok (l.filter (fun f =>
      match strptime f.modified_time with
      | some d => DateTime.ble fd d
      | none => false)) := by
  induction l with
  | nil => rfl
  | cons f rest ih =>
    have hf := hwf f (List.mem_cons_self f rest)
    obtain ⟨d, hd⟩ := Option.isSome_iff_exists.mp hf
    have hrest := ih (fun g hg => hwf g (List.mem_cons_of_mem f hg))
    rw [filterKeptByDate, hd, hrest, List.filter_cons]
    by_cases hb : DateTime.ble fd d
    · simp [hd, hb]
    · simp [hd, hb]

/-- C3: with well-formed entry times, a bound matching `dd.mm.yyyy HH:MM`
makes `filter_by_date` return exactly the entries whose parsed modified time
is at least the parsed bound (inclusive); a bound that does not parse makes it
raise a value error. -/
theorem C3_filter_by_date_spec (l : List FileInfo) (bound : String)
    (hwf : ∀ f ∈ l, (strptime f.modified_time).isSome) :
    (∀ fd, strptime bound = some fd →
        filter_by_date l bound = Except.ok (l.filter (fun f =>
          match strptime f.modified_time with
          | some d => DateTime.ble fd d
          | none => false))) ∧
    (strptime bound = none →
        ∃ msg, filter_by_date l bound = Except.error msg) := by
  constructor
  · intro fd hfd
    unfold filter_by_date
    rw [hfd]
    exact filterKeptByDate_eq fd l hwf
  · intro hnone
    unfold filter_by_date
    rw [hnone]
    exact ⟨_, rfl⟩

/-- Witness for C3: the boundary example from the test suite — the bound
`01.01.2023 00:00` keeps `test_file.txt` and drops the 2022 files. -/
theorem C3_filter_by_date_spec_witness :
    filter_by_date [fTest, fExample] "01.01.2023 00:00"
      = Except.ok ([fTest, fExample].filter (fun f =>
          match strptime f.modified_time with
          | some d => DateTime.ble ⟨2023, 1, 1, 0, 0⟩ d
          | none => false)) :=
  (C3_filter_by_date_spec [fTest, fExample] "01.01.2023 00:00" (by decide)).1
    ⟨2023, 1, 1, 0, 0⟩ (by decide)

/-- A successful date filter yields a sublist of its input. -/
theorem filterKeptByDate_sublist (fd : DateTime) (l : List FileInfo) :
    ∀ r, filterKeptByDate fd l = Except.ok r → List.Sublist r l := by
  induction l with
  | nil =>
    intro r h
    simp only [filterKeptByDate, Except.ok.injEq] at h
    subst h
    exact List.Sublist.refl _
  | cons f rest ih =>
    intro r h
    rw [filterKeptByDate] at h
    cases hs : strptime f.modified_time with
    | none => rw [hs] at h; exact absurd h (by simp)
    | some d =>
      rw [hs] at h
      cases hrec : filterKeptByDate fd rest with
      | error e => rw [hrec] at h; exact absurd h (by simp)
      | ok tail =>
        rw [hrec] at h
        simp only [Except.ok.injEq] at h
        subst h
        by_cases hb : DateTime.ble fd d
        · rw [if_pos hb]
          exact List.Sublist.cons₂ f (ih tail hrec)
        · rw [if_neg hb]
          exact List.Sublist.cons f (ih tail hrec)

/-- C9: for a list with well-formed `modified_time` strings, `filter_by_name`
returns a sublist of its input (entries unmodified, order preserved), and so
does `filter_by_date` whenever it returns normally. -/
theorem C9_filters_sublist (l : List FileInfo) (nf bound : String)
    (_hwf : ∀ f ∈ l, (strptime f.modified_time).isSome) :
    List.Sublist (filter_by_name l nf) l ∧
    ∀ r, filter_by_date l bound = Except.ok r → List.Sublist r l := by
  refine ⟨List.filter_sublist _, ?_⟩
  intro r h
  unfold filter_by_date at h
  cases hb : strptime bound with
  | none => rw [hb] at h; exact absurd h (by simp)
  | some fd => rw [hb] at h; exact filterKeptByDate_sublist fd l r h

/-- Witness for C9 at a concrete list and filters. -/
theorem C9_filters_sublist_witness :
    List.Sublist (filter_by_name [fTest, fExample] "test") [fTest, fExample] ∧
    ∀ r, filter_by_date [fTest, fExample] "01.01.2023 00:00" = Except.ok r →
      List.Sublist r [fTest, fExample] :=
  C9_filters_sublist [fTest, fExample] "test" "01.01.2023 00:00" (by decide)

/-- A date filter that returns normally parsed every entry's time. -/
theorem filterKeptByDate_ok_all_parse (fd : DateTime) (l : List FileInfo) :
    ∀ r, filterKeptByDate fd l = Except.ok r →
      ∀ f ∈ l, (strptime f.modified_time).isSome := by
  induction l with
  | nil => intro r _ f hf; simp at hf
  | cons g rest ih =>
    intro r h f hf
    rw [filterKeptByDate] at h
    cases hs : strptime g.modified_time with
    | none => rw [hs] at h; exact absurd h (by simp)
    | some d =>
      rw [hs] at h
      cases hrec : filterKeptByDate fd rest with
      | error e => rw [hrec] at h; exact absurd h (by simp)
      | ok tail =>
        rcases List.mem_cons.mp hf with heq | hmem
        · subst heq; simp [hs]
        · exact ih tail hrec f hmem

/-- A malformed entry forces the date filter into an error. -/
theorem filterKeptByDate_error_of_bad (fd : DateTime) (l : List FileInfo)
    (hbad : ∃ f ∈ l, strptime f.modified_time = none) :
    ∃ msg, filterKeptByDate fd l = Except.error msg := by
  cases h : filterKeptByDate fd l with
  | error e => exact ⟨e, rfl⟩
  | ok r =>
    obtain ⟨f, hf, hnone⟩ := hbad
    have := filterKeptByDate_ok_all_parse fd l r h f hf
    rw [hnone] at this
    exact absurd this (by simp)

/-- C10: when some entry's `modified_time` does not parse, `filter_by_date`
raises a value error even for a well-formed bound; returning normally requires
every entry's time to parse. -/
theorem C10_malformed_entry_raises (l : List FileInfo) (bound : String) :
    ((∃ f ∈ l, strptime f.modified_time = none) →
      ∀ fd, strptime bound = some fd →
        ∃ msg, filter_by_date l bound = Except.error msg) ∧
    (∀ r, filter_by_date l bound = Except.ok r →
      ∀ f ∈ l, (strptime f.modified_time).isSome) := by
  constructor
  · intro hbad fd hfd
    unfold filter_by_date
    rw [hfd]
    exact filterKeptByDate_error_of_bad fd l hbad
  · intro r h f hf
    unfold filter_by_date at h
    cases hb : strptime bound with
    | none => rw [hb] at h; exact absurd h (by simp)
    | some fd => rw [hb] at h; exact filterKeptByDate_ok_all_parse fd l r h f hf

/-- Witness for C10: one malformed entry makes the filter error out. -/
theorem C10_malformed_entry_raises_witness :
    ∃ msg, filter_by_date [fTest, fBad] "01.01.2023 00:00" = Except.error msg :=
  (C10_malformed_entry_raises [fTest, fBad] "01.01.2023 00:00").1 (by decide)
    ⟨2023, 1, 1, 0, 0⟩ (by decide)

/-- Writing a path and reading it back yields the written content. -/
theorem getFile_setFile (fs : List (String × String)) (p c : String) :
    getFile (setFile fs p c) p = some c := by
  induction fs with
  | nil => simp [setFile, getFile]
  | cons hd tl ih =>
    obtain ⟨q, d⟩ := hd
    rw [setFile]
    by_cases h : q == p
    · rw [if_pos h]
      simp [getFile]
    · rw [if_neg h]
      rw [getFile, if_neg h]
      exact ih

/-- C1 counterexample: with output path `out.txt` and the two requested
formats `grid` and `csv`, the run does not leave one file per format — the
`grid` rendering is nowhere in the final file system, because the second
`write_to_file` call reopened the same path in truncating mode. -/
theorem C1_counterexample :
    ¬ (∀ fmt ∈ ["grid", "csv"], ∃ p,
        getFile (writeOutputs [fTest] (some "out.txt") ["grid", "csv"] []).1 p
          = some (renderTable [fTest] fmt)) := by
  intro hcl
  obtain ⟨p, hp⟩ := hcl "grid" (by simp)
  have hfs : (writeOutputs [fTest] (some "out.txt") ["grid", "csv"] []).1
      = [("out.txt", renderTable [fTest] "csv")] := by decide
  rw [hfs, getFile] at hp
  by_cases hq : ("out.txt" == p)
  · rw [if_pos hq] at hp
    have hne : renderTable [fTest] "csv" ≠ renderTable [fTest] "grid" := by decide
    exact hne (Option.some.inj hp)
  · rw [if_neg hq] at hp
    exact Option.noConfusion hp

/-- C1 (amended): each requested format triggers one truncating write to the
single output path, so after the loop the output file holds exactly the
rendering of the last requested format; the other formats' renderings are
overwritten. -/
theorem C1_last_format_wins (l : List FileInfo) (p : String) (fmts : List String)
    (fmt : String) (fs : List (String × String)) (hlast : fmts.getLast? = some fmt) :
    getFile (writeOutputs l (some p) fmts fs).1 p = some (renderTable l fmt) := by
  induction fmts generalizing fs with
  | nil => simp at hlast
  | cons f rest ih =>
    cases rest with
    | nil =>
      simp only [List.getLast?_singleton, Option.some.injEq] at hlast
      subst hlast
      rw [writeOutputs, writeOutputs, write_to_file]
      exact getFile_setFile fs p _
    | cons g rest2 =>
      have h2 : (g :: rest2).getLast? = some fmt := by
        rw [← hlast, List.getLast?_cons_cons]
      rw [writeOutputs, write_to_file]
      exact ih _ h2

/-- Witness for C1 (amended): with formats `grid` then `csv`, the file ends up
holding the `csv` rendering. -/
theorem C1_last_format_wins_witness :
    getFile (writeOutputs [fTest] (some "out.txt") ["grid", "csv"] []).1 "out.txt"
      = some (renderTable [fTest] "csv") :=
  C1_last_format_wins [fTest] "out.txt" ["grid", "csv"] "csv" [] rfl
